import Mathlib

/-!
Shallow embedding of the `golog` structured-logging package (Go) and proofs
about its documented behavior.  Pure parts of the Go code become Lean
functions; the package-level mutable variables (`minLevel`, the global writer
`instance`) are threaded explicitly as arguments and results.  A Go `panic`
is modelled by the `Res.fault` outcome.
-/

namespace Golog

/-- Outcome of a Go computation that can abort with a runtime panic: either a
normal result or a fault carrying the panic message. -/
inductive Res (α : Type) where
  | ok (a : α)
  | fault (msg : String)
deriving DecidableEq

/-- Predicate: the computation aborted. -/
def Res.isFault {α : Type} : Res α → Bool
  | .ok _ => false
  | .fault _ => true

/-! ## Level registry

Go source: `const ( LevelDebug = iota; LevelInfo; LevelError )`,
`levelNames`, `levelValues`, `var minLevel = LevelInfo`,
`ParseLevel`, `LevelString`, `SetLevel`, `shouldLog`. -/

/-- Level constant `LevelDebug = 0`. -/
def LevelDebug : Int := 0

/-- Level constant `LevelInfo = 1`. -/
def LevelInfo : Int := 1

/-- Level constant `LevelError = 2`. -/
def LevelError : Int := 2

/-- The `levelNames` map: level code to name, as written in the source
(`{0: "DEBUG", 1: "INFO", 2: "ERROR"}`); lookup of any other code misses. -/
def levelNames (level : Int) : Option String :=
  if level = 0 then some "DEBUG"
  else if level = 1 then some "INFO"
  else if level = 2 then some "ERROR"
  else none

/-- The `levelValues` map: level name to code
(`{"DEBUG": 0, "INFO": 1, "ERROR": 2}`). -/
def levelValues (s : String) : Option Int :=
  if s = "DEBUG" then some 0
  else if s = "INFO" then some 1
  else if s = "ERROR" then some 2
  else none

/-- Initial value of the package variable `minLevel` (`var minLevel = LevelInfo`). -/
def minLevelInit : Int := LevelInfo

/-- One character of Go's Unicode-aware `unicode.ToUpper`, restricted to
what `ParseLevel` can observe.  `ParseLevel` only compares the uppercased
input against the ASCII strings `"DEBUG"`/`"INFO"`/`"ERROR"`, so the mapping
is modelled exactly on every code point whose Unicode simple uppercase is an
ASCII letter — the ASCII range `a`..`z` (via `Char.toUpper`) plus the two
non-ASCII code points with an ASCII uppercase, U+0131 dotless i `ı` → `I`
and U+017F long s `ſ` → `S` — and as the identity elsewhere (the true image
of any other character is never an ASCII letter, so no table lookup can
distinguish it from the character itself). -/
def goCharToUpper (c : Char) : Char :=
  if c = 'ı' then 'I'
  else if c = 'ſ' then 'S'
  else c.toUpper

/-- The `strings.ToUpper` call as used by `ParseLevel`: `goCharToUpper`
applied character by character. -/
def goToUpper (s : String) : String :=
  String.mk (s.data.map goCharToUpper)

/-- ASCII-only uppercasing, the claim's notion of a case variant: two
strings are ASCII case variants of each other exactly when their images
under this map agree.  Used only to state which inputs count as "case
variants" of the level names; `ParseLevel` itself uses `goToUpper`. -/
def asciiToUpper (s : String) : String :=
  String.mk (s.data.map Char.toUpper)

/-- The `ParseLevel` function: uppercase the input, look it up in
`levelValues`, and return `-1` on a miss. -/
def ParseLevel (level : String) : Int :=
  match levelValues (goToUpper level) with
  | some value => value
  | none => -1

/-- The `LevelString` function: look the code up in `levelNames`, returning
`"UNKNOWN"` on a miss. -/
def LevelString (level : Int) : String :=
  match levelNames level with
  | some name => name
  | none => "UNKNOWN"

/-- The `SetLevel` function with the package variable `minLevel` threaded
explicitly: the result is the value of `minLevel` after the call (updated
only when `level` is a key of `levelNames`). -/
def SetLevel (minLevel level : Int) : Int :=
  if (levelNames level).isSome then level else minLevel

/-- The `shouldLog` function with `minLevel` threaded explicitly: false for a
code missing from `levelNames`, otherwise `level >= minLevel`. -/
def shouldLog (minLevel level : Int) : Bool :=
  if (levelNames level).isNone then false
  else decide (minLevel ≤ level)

/-! ## Go field values

A `map[string]any` field value, abstracted to the categories the two writers
dispatch on.  Numeric formatting (`strconv.FormatFloat`) and wall-clock
formatting (`time.Format(time.RFC3339)`) are outside the embedding, so a
`float64`/`float32` value carries its `FormatFloat` rendering and a
`time.Time` value carries its RFC 3339 rendering.  An `error` value carries
both its `Error()` message and its `fmt "%+v"` detail string.  `chanV` and
`funcV` are channel- and function-typed values; `other` is any other value
together with the result of `sonic.Marshal` on it (`none` when sonic cannot
represent it). -/
inductive GoVal where
  | string (s : String)
  | bool (b : Bool)
  | float64 (r : String)
  | float32 (r : String)
  | int64 (n : Int)
  | int32 (n : Int)
  | int (n : Int)
  | uint64 (n : Nat)
  | uint32 (n : Nat)
  | uint (n : Nat)
  | uint8 (n : Nat)
  | uint16 (n : Nat)
  | complex64
  | complex128
  | time (rfc3339 : String)
  | err (msg : String) (detail : String)
  | chanV
  | funcV
  | nilV
  | other (marshalled : Option String)
deriving DecidableEq

/-- Result of `sonic.Marshal` on a single value: `none` models a marshal
error (channels, functions and complex numbers are unsupported by the
encoder), `some` the produced JSON text.  String escaping is not modelled;
the text is only ever compared for presence, never parsed. -/
def sonicMarshalVal : GoVal → Option String
  | .string s => some s
  | .bool b => some (if b then "true" else "false")
  | .float64 r => some r
  | .float32 r => some r
  | .int64 n => some (toString n)
  | .int32 n => some (toString n)
  | .int n => some (toString n)
  | .uint64 n => some (toString n)
  | .uint32 n => some (toString n)
  | .uint n => some (toString n)
  | .uint8 n => some (toString n)
  | .uint16 n => some (toString n)
  | .complex64 => none
  | .complex128 => none
  | .time r => some r
  | .err msg _ => some msg
  | .chanV => none
  | .funcV => none
  | .nilV => some "null"
  | .other marshalled => marshalled

/-! ## Text-mode value renderer (`defaultWriter.valToString` / `reflectToString`) -/

/-- The `defaultWriter.reflectToString` method: `sonic.Marshal` the value and
panic on a marshal error (the panic payload is the sonic error, whose exact
text is not modelled). -/
def reflectToString (v : GoVal) : Res String :=
  match sonicMarshalVal v with
  | some jstr => .ok jstr
  | none => .fault "sonic marshal error"

/-- The `defaultWriter.valToString` method: the type switch of the source,
case by case.  Integer cases use base-10 `FormatInt`/`FormatUint`/`Itoa`
(decimal rendering); the `complex64`/`complex128` cases panic with the
literal messages of the source; the `error` case renders `v.Error()`; every
unmatched value falls through to `reflectToString`. -/
def valToString : GoVal → Res String
  | .string s => .ok s
  | .bool b => .ok (if b then "true" else "false")
  | .float64 r => .ok r
  | .float32 r => .ok r
  | .int64 n => .ok (toString n)
  | .int32 n => .ok (toString n)
  | .int n => .ok (toString n)
  | .uint64 n => .ok (toString n)
  | .uint32 n => .ok (toString n)
  | .uint n => .ok (toString n)
  | .uint8 n => .ok (toString n)
  | .uint16 n => .ok (toString n)
  | .complex64 => .fault "complex64 is not supported"
  | .complex128 => .fault "complex128 is not supported"
  | .time r => .ok r
  | .err msg _ => .ok msg
  | v => reflectToString v

/-- Supported text-mode categories named by the claim: string, bool, the
signed and unsigned integer widths, the float widths, time and error. -/
def isSupportedCat : GoVal → Bool
  | .string _ => true
  | .bool _ => true
  | .float64 _ => true
  | .float32 _ => true
  | .int64 _ => true
  | .int32 _ => true
  | .int _ => true
  | .uint64 _ => true
  | .uint32 _ => true
  | .uint _ => true
  | .uint8 _ => true
  | .uint16 _ => true
  | .time _ => true
  | .err _ _ => true
  | _ => false

/-! ## Go maps with string keys

A `map[string]any` is represented by an association list with unique keys;
`mapSet` is Go map assignment (overwrite in place or append), `mapGet` is
lookup. -/

/-- Field map: association list from key to value. -/
abbrev Fields : Type := List (String × GoVal)

/-- Go map assignment `m[k] = v`: overwrite the binding of `k` when present,
append it otherwise. -/
def mapSet (m : Fields) (k : String) (v : GoVal) : Fields :=
  match m with
  | [] => [(k, v)]
  | (k', v') :: rest => if k' = k then (k, v) :: rest else (k', v') :: mapSet rest k v

/-- Go map lookup `m[k]` (missing key gives `none`, Go's zero value `nil`). -/
def mapGet (m : Fields) (k : String) : Option GoVal :=
  match m with
  | [] => none
  | (k', v') :: rest => if k' = k then some v' else mapGet rest k

/-- Keys of a field map, in order. -/
def mapKeys (m : Fields) : List String :=
  m.map Prod.fst

/-! ## JSON writer (`jsonwriter.go`) -/

/-- Reserved key constants of the source (`FieldTime`, `FieldLevel`,
`FieldMessage`, `FieldCaller`). -/
def FieldTime : String := "time"

/-- Reserved key `FieldLevel`. -/
def FieldLevel : String := "level"

/-- Reserved key `FieldMessage`. -/
def FieldMessage : String := "msg"

/-- Reserved key `FieldCaller`. -/
def FieldCaller : String := "caller"

/-- How `jsonWriter.Write` stores one user field into the entry: an
error-typed value becomes its `fmt "%+v"` detail string, every other value
is stored as-is. -/
def jsonRenderField : GoVal → GoVal
  | .err _ detail => .string detail
  | v => v

/-- The base map literal of `jsonWriter.Write`: the four reserved keys
(time, level, msg, caller).  `now` is the formatted `time.Now()` value and
`caller` the formatted `getCallerInfo` result, both supplied by opaque
providers. -/
def jsonWriterBase (now caller : String) (level : Int) (msg : String) : Fields :=
  mapSet (mapSet (mapSet (mapSet [] FieldTime (.string now))
    FieldLevel (.string (LevelString level)))
    FieldMessage (.string msg))
    FieldCaller (.string caller)

/-- The entry map `jsonWriter.Write` builds before marshalling: the base map
literal, then every user field assigned on top of it in order. -/
def jsonWriterEntry (now caller : String) (level : Int) (msg : String)
    (fields : Fields) : Fields :=
  fields.foldl (fun e kv => mapSet e kv.1 (jsonRenderField kv.2))
    (jsonWriterBase now caller level msg)

/-- Success of `sonic.Marshal` on the whole entry map: every stored value
must be representable. -/
def entryMarshalable (e : Fields) : Bool :=
  e.all (fun kv => (sonicMarshalVal kv.2).isSome)

/-- The `jsonWriter.Write` method, at the level of the emitted record: build
the entry map, marshal it with sonic, and — as the source is written —
`panic(err)` when the marshal fails; on success the emitted record is the
entry map (its serialization to bytes is not modelled). -/
def jsonWriterWrite (now caller : String) (level : Int) (msg : String)
    (fields : Fields) : Res Fields :=
  let entry := jsonWriterEntry now caller level msg fields
  if entryMarshalable entry then .ok entry
  else .fault "sonic marshal error"

/-! ## Text writer (`defaultWriter`) -/

/-- An opaque output sink identity (`io.Writer`). -/
inductive GoSink where
  | stdout
  | sink (id : Nat)
deriving DecidableEq

/-- The `defaultWriter` struct: the output sink and the buffered writer.
`buf? = none` models a nil `*bufio.Writer` (the zero value of the field when
the struct literal does not set it); `some lines` models a live buffer
holding the appended records. -/
structure DefaultWriterState where
  output : GoSink
  buf? : Option (List String)
deriving DecidableEq

/-- The `NewDefaultWriter` constructor: wraps the output in a fresh (empty)
`bufio.Writer` — the only place the `buf` field is initialized. -/
def NewDefaultWriter (output : GoSink) : DefaultWriterState :=
  { output := output, buf? := some [] }

/-- The `defaultWriter.fieldsToString` method: concatenate
`key="value"` segments separated by single spaces, in map-iteration order
(the association-list order here); a panic in `valToString` propagates. -/
def fieldsToString (fields : Fields) : Res String :=
  match fields with
  | [] => .ok ""
  | (key, value) :: rest =>
    match valToString value with
    | .fault e => .fault e
    | .ok s =>
      match fieldsToString rest with
      | .fault e => .fault e
      | .ok tail =>
        .ok (key ++ "=" ++ "\x22" ++ s ++ "\x22" ++ (if tail = "" then "" else " " ++ tail))

/-- The `defaultWriter.Write` method: format
`file:line [LEVEL][timestamp] msg fields` and append it to the buffer.  The
`Fprintf` arguments (in particular `fieldsToString`) are evaluated first, so
a field-rendering panic aborts before the buffer is touched; writing through
a nil `*bufio.Writer` then dereferences the nil receiver and faults (Go
runtime panic). -/
def defaultWriterWrite (now caller : String) (w : DefaultWriterState)
    (level : Int) (msg : String) (fields : Fields) : Res DefaultWriterState :=
  match fieldsToString fields with
  | .fault e => .fault e
  | .ok fs =>
    match w.buf? with
    | none => .fault "runtime error: invalid memory address or nil pointer dereference"
    | some lines =>
      let line := caller ++ " [" ++ LevelString level ++ "][" ++ now ++ "] " ++ msg ++ " " ++ fs ++ "\n"
      .ok { w with buf? := some (lines ++ [line]) }

/-! ## Scope (`LogScope`) -/

/-- An enricher attached to a scope, as a field-set mutator: it receives the
level name, the formatted message and the current field set and returns the
mutated field set (the `context.Context` argument is opaque and dropped). -/
abbrev EnricherFn : Type := String → String → Fields → Fields

/-- The `LogScope` struct: its writer reference and context are external to
the properties proved here, so the state is the field set and the attached
enricher list. -/
structure ScopeState where
  fields : Fields
  enrichers : List EnricherFn

/-- The `newScope` constructor: empty field map, no enrichers (the global
writer reference and background context are not part of the state). -/
def newScope : ScopeState :=
  { fields := [], enrichers := [] }

/-- The `LogScope.With` method: `l.fields[key] = value`. -/
def scopeWith (l : ScopeState) (key : String) (value : GoVal) : ScopeState :=
  { l with fields := mapSet l.fields key value }

/-- The `LogScope.WithError` method: store `err.Error()` — the message
string, not the error value — under the `"error"` key. -/
def scopeWithError (l : ScopeState) (errMsg : String) : ScopeState :=
  { l with fields := mapSet l.fields "error" (.string errMsg) }

/-- The `LogScope.WithFields` method: assign every pair of the argument map
into `l.fields` in order. -/
def scopeWithFields (l : ScopeState) (fields : Fields) : ScopeState :=
  { l with fields := fields.foldl (fun m kv => mapSet m kv.1 kv.2) l.fields }

/-- One writer invocation observed during `LogScope.write`: the level, the
formatted message and the field set passed to `writer.Write`. -/
structure WriterCall where
  level : Int
  msg : String
  fields : Fields

/-- The `LogScope.write` method with `minLevel` threaded explicitly.  The
formatted message `msg` stands for `fmt.Sprintf(msg, args...)`.  Returns the
scope after the call, the writer invocation (if any), and the number of
enrichers run: when `shouldLog` fails the method returns at once — fields
untouched, writer not called, no enricher run; otherwise each enricher
mutates `l.fields` in place in order and the writer receives the enriched
field set. -/
def scopeWrite (minLevel : Int) (l : ScopeState) (level : Int) (msg : String) :
    ScopeState × Option WriterCall × Nat :=
  if !shouldLog minLevel level then (l, none, 0)
  else
    let lname := LevelString level
    let enriched := l.enrichers.foldl (fun f e => e lname msg f) l.fields
    ({ l with fields := enriched },
     some { level := level, msg := msg, fields := enriched },
     l.enrichers.length)

/-- The message produced by `errors.Wrap(err, context)` of `pkg/errors`:
`context ++ ": " ++ err.Error()`. -/
def errorsWrapMsg (context errMsg : String) : String :=
  context ++ ": " ++ errMsg

/-- The error value returned by `LogScope.Error` (its message text), after
the `l.write` call: if `l.fields["error"]` is non-nil AND type-asserts to
`error`, return `errors.Wrap(err, formatted)`; otherwise return
`errors.New(formatted)`.  `formatted` stands for
`fmt.Sprintf(msg, args...)`. -/
def scopeErrorReturn (l : ScopeState) (formatted : String) : String :=
  match mapGet l.fields "error" with
  | none => formatted
  | some v =>
    match v with
    | .nilV => formatted
    | .err errMsg _ => errorsWrapMsg formatted errMsg
    | _ => formatted

/-- The `LogScope.Error` method with `minLevel` threaded explicitly: perform
the `write` at `LevelError`, then build the returned error message from the
(possibly enriched) scope. -/
def scopeError (minLevel : Int) (l : ScopeState) (formatted : String) :
    (ScopeState × Option WriterCall × Nat) × String :=
  let w := scopeWrite minLevel l LevelError formatted
  (w, scopeErrorReturn w.1 formatted)

/-- Substring check used to state "message contains": `needle` occurs
contiguously in `haystack`. -/
def strContains (haystack needle : String) : Bool :=
  decide (needle.data <:+: haystack.data)

/-! ## Global façade (`log.go`) -/

/-- The package variable `instance`, as initialized in the source:
`&defaultWriter{output: os.Stdout}` — a struct literal that never sets the
`buf` field, leaving it the nil `*bufio.Writer`. -/
def instanceInit : DefaultWriterState :=
  { output := .stdout, buf? := none }

/-- The `WithPairs` convenience constructor: panic on an odd argument count,
then walk the arguments two at a time, panicking when an even-index element
is not a string key, and build the field map; on success the scope holds the
collected pairs.  The helper consumes the list two elements at a time; the
one-element case is unreachable under the even-length guard and maps to the
same panic as the guard. -/
def withPairsLoop (args : List GoVal) (pairs : Fields) : Res Fields :=
  match args with
  | [] => .ok pairs
  | key :: value :: rest =>
    match key with
    | .string k => withPairsLoop rest (mapSet pairs k value)
    | _ => .fault "pairs must have alternating key-value arguments"
  | [_] => .fault "pairs must have even number of arguments"

/-- The `WithPairs` function: the even-length guard, then the collection
loop, then `WithFields` on a fresh scope. -/
def WithPairs (args : List GoVal) : Res ScopeState :=
  if args.length % 2 ≠ 0 then .fault "pairs must have even number of arguments"
  else
    match withPairsLoop args [] with
    | .fault e => .fault e
    | .ok pairs => .ok (scopeWithFields newScope pairs)

/-- One global emission (`Debug`/`Info`/`Error` of the façade): a fresh scope
(empty fields, no enrichers) whose `write` reaches `instance.Write` when the
level passes `shouldLog`.  The writer is the text `defaultWriter` held in
`instance`; `now`/`caller` are the opaque time and caller providers. -/
def globalEmit (now caller : String) (minLevel : Int) (w : DefaultWriterState)
    (level : Int) (msg : String) : Res DefaultWriterState :=
  if !shouldLog minLevel level then .ok w
  else defaultWriterWrite now caller w level msg []

/-! ## Auxiliary definitions used only to state claims -/

/-- Folding a pair list into a map by repeated Go map assignment (the loop
bodies of `jsonWriter.Write`, `LogScope.WithFields` and `WithPairs`). -/
def insertAll (base : Fields) (ps : List (String × GoVal)) : Fields :=
  ps.foldl (fun m kv => mapSet m kv.1 kv.2) base

/-- Well-formedness of a `WithPairs` argument list as the claim states it:
even length, and every element at an even index is a string key. -/
def wellFormedPairs : List GoVal → Bool
  | [] => true
  | .string _ :: _ :: rest => wellFormedPairs rest
  | _ => false

/-- The key/value pairs named by the even/odd positions of a `WithPairs`
argument list (cut off at the first malformed position). -/
def pairList : List GoVal → List (String × GoVal)
  | .string k :: v :: rest => (k, v) :: pairList rest
  | _ => []

/-- Sample enricher used by concrete witnesses: records the level name under
a fixed key. -/
def sampleEnricher : EnricherFn :=
  fun lname _ f => mapSet f "enriched_by" (.string lname)

/-- Sample scope used by concrete witnesses: one field and one attached
enricher. -/
def sampleScope : ScopeState :=
  { fields := [("k", GoVal.string "v")], enrichers := [sampleEnricher] }

/-- Sample user field map used by concrete witnesses, holding a field whose
key collides with the reserved `level` key. -/
def exampleJsonFields : Fields :=
  [("level", GoVal.string "custom"), ("user_id", GoVal.int 123)]

/-! ## Map lemmas -/

/-- Assignment then lookup of the same key. -/
theorem mapGet_mapSet_self (m : Fields) (k : String) (v : GoVal) :
    mapGet (mapSet m k v) k = some v := by
  induction m with
  | nil => simp [mapSet, mapGet]
  | cons hd tl ih =>
    obtain ⟨k', v'⟩ := hd
    by_cases h : k' = k <;> simp [mapSet, mapGet, h, ih]

/-- Assignment leaves the binding of every other key unchanged. -/
theorem mapGet_mapSet_ne (m : Fields) (k k' : String) (v : GoVal) (h : k ≠ k') :
    mapGet (mapSet m k v) k' = mapGet m k' := by
  induction m with
  | nil => simp [mapSet, mapGet, h]
  | cons hd tl ih =>
    obtain ⟨k0, v0⟩ := hd
    by_cases h0 : k0 = k
    · subst h0
      simp [mapSet, mapGet, h]
    · simp [mapSet, mapGet, h0, ih]

/-- Key list after an assignment: unchanged when the key was present,
extended by the key otherwise. -/
theorem mapKeys_mapSet (m : Fields) (k : String) (v : GoVal) :
    mapKeys (mapSet m k v) = if k ∈ mapKeys m then mapKeys m else mapKeys m ++ [k] := by
  induction m with
  | nil => simp [mapSet, mapKeys]
  | cons hd tl ih =>
    obtain ⟨k0, v0⟩ := hd
    by_cases h0 : k0 = k
    · subst h0
      simp [mapSet, mapKeys]
    · have hne : ¬ k = k0 := fun h => h0 h.symm
      simp [mapSet, mapKeys, h0, hne] at ih ⊢
      rw [ih]
      by_cases hmem : k ∈ List.map Prod.fst tl <;> simp [hmem, hne]

/-- Assignment preserves key uniqueness. -/
theorem nodup_mapKeys_mapSet (m : Fields) (k : String) (v : GoVal)
    (h : (mapKeys m).Nodup) : (mapKeys (mapSet m k v)).Nodup := by
  rw [mapKeys_mapSet]
  by_cases hmem : k ∈ mapKeys m
  · simpa [hmem] using h
  · simp only [hmem, if_false]
    simpa [List.nodup_append] using ⟨h, hmem⟩

/-- Folding assignments of keys a lookup key avoids leaves that lookup
unchanged. -/
theorem mapGet_insertAll_not_mem (ps : List (String × GoVal)) (base : Fields)
    (k : String) (h : k ∉ mapKeys ps) :
    mapGet (insertAll base ps) k = mapGet base k := by
  induction ps generalizing base with
  | nil => simp [insertAll]
  | cons hd tl ih =>
    obtain ⟨k0, v0⟩ := hd
    simp only [mapKeys, List.map_cons, List.mem_cons, not_or] at h
    have step : insertAll base ((k0, v0) :: tl) = insertAll (mapSet base k0 v0) tl := rfl
    rw [step, ih (mapSet base k0 v0) (by simpa [mapKeys] using h.2),
      mapGet_mapSet_ne base k0 k v0 (fun hk => h.1 hk.symm)]

/-- Folding assignments of a pair list with unique keys binds every listed
pair. -/
theorem mapGet_insertAll_mem (ps : List (String × GoVal)) (base : Fields)
    (k : String) (v : GoVal) (hnd : (mapKeys ps).Nodup) (hmem : (k, v) ∈ ps) :
    mapGet (insertAll base ps) k = some v := by
  induction ps generalizing base with
  | nil => cases hmem
  | cons hd tl ih =>
    obtain ⟨k0, v0⟩ := hd
    have step : insertAll base ((k0, v0) :: tl) = insertAll (mapSet base k0 v0) tl := rfl
    simp only [mapKeys, List.map_cons, List.nodup_cons] at hnd
    rcases List.mem_cons.mp hmem with heq | htl
    · obtain ⟨h1, h2⟩ := Prod.ext_iff.mp heq
      subst h1
      subst h2
      have hk : k ∉ mapKeys tl := by simpa [mapKeys] using hnd.1
      rw [step, mapGet_insertAll_not_mem tl (mapSet base k v) k hk,
        mapGet_mapSet_self]
    · rw [step]
      exact ih (mapSet base k0 v0) (by simpa [mapKeys] using hnd.2) htl

/-- Lookup success implies membership. -/
theorem mem_of_mapGet_eq_some (m : Fields) (k : String) (v : GoVal)
    (h : mapGet m k = some v) : (k, v) ∈ m := by
  induction m with
  | nil => simp [mapGet] at h
  | cons hd tl ih =>
    obtain ⟨k0, v0⟩ := hd
    by_cases h0 : k0 = k
    · subst h0
      simp [mapGet] at h
      simp [h]
    · simp [mapGet, h0] at h
      exact List.mem_cons_of_mem _ (ih h)

/-- Folding assignments preserves key uniqueness. -/
theorem nodup_mapKeys_insertAll (ps : List (String × GoVal)) (base : Fields)
    (h : (mapKeys base).Nodup) : (mapKeys (insertAll base ps)).Nodup := by
  induction ps generalizing base with
  | nil => simpa [insertAll] using h
  | cons hd tl ih =>
    obtain ⟨k0, v0⟩ := hd
    have step : insertAll base ((k0, v0) :: tl) = insertAll (mapSet base k0 v0) tl := rfl
    rw [step]
    exact ih (mapSet base k0 v0) (nodup_mapKeys_mapSet base k0 v0 h)

/-! ## Claim theorems: level registry -/

/-- C5: `SetLevel` updates the process-wide minimum only for a recognized code
in {0,1,2}; an unrecognized code leaves the previous minimum intact, and after
a valid set every subsequent `shouldLog` check is evaluated against the new
threshold. -/
theorem setLevel_updates_only_recognized (minLevel level : Int) :
    ((level = 0 ∨ level = 1 ∨ level = 2) →
      SetLevel minLevel level = level ∧
      ∀ c : Int, shouldLog (SetLevel minLevel level) c = shouldLog level c) ∧
    (¬(level = 0 ∨ level = 1 ∨ level = 2) → SetLevel minLevel level = minLevel) := by
  constructor
  · rintro (rfl | rfl | rfl) <;>
      refine ⟨by simp [SetLevel, levelNames], fun c => by simp [SetLevel, levelNames]⟩
  · intro h
    push_neg at h
    obtain ⟨h0, h1, h2⟩ := h
    simp [SetLevel, levelNames, h0, h1, h2]

/-- Witness for C5 at concrete inputs: setting level 0 from minimum 2 updates
the minimum (and `shouldLog` immediately uses it), while setting 999 leaves
the minimum at 2. -/
theorem setLevel_updates_only_recognized_witness :
    (SetLevel 2 0 = 0 ∧ ∀ c : Int, shouldLog (SetLevel 2 0) c = shouldLog 0 c) ∧
    SetLevel 2 999 = 2 :=
  ⟨(setLevel_updates_only_recognized 2 0).1 (Or.inl rfl),
   (setLevel_updates_only_recognized 2 999).2 (by decide)⟩

/-- C6: for every code outside {0,1,2}, `LevelString` returns the literal
`"UNKNOWN"` and `shouldLog` returns false regardless of the current minimum. -/
theorem levelString_shouldLog_unrecognized (code : Int)
    (h0 : code ≠ 0) (h1 : code ≠ 1) (h2 : code ≠ 2) :
    LevelString code = "UNKNOWN" ∧
    ∀ minLevel : Int, shouldLog minLevel code = false := by
  refine ⟨?_, fun minLevel => ?_⟩
  · simp [LevelString, levelNames, h0, h1, h2]
  · simp [shouldLog, levelNames, h0, h1, h2]

/-- Witness for C6 at the codes 999 and -7, against arbitrary minima. -/
theorem levelString_shouldLog_unrecognized_witness :
    (LevelString 999 = "UNKNOWN" ∧ ∀ minLevel : Int, shouldLog minLevel 999 = false) ∧
    (LevelString (-7) = "UNKNOWN" ∧ ∀ minLevel : Int, shouldLog minLevel (-7) = false) :=
  ⟨levelString_shouldLog_unrecognized 999 (by decide) (by decide) (by decide),
   levelString_shouldLog_unrecognized (-7) (by decide) (by decide) (by decide)⟩

/-- C7 counterexample: `"ınfo"` (dotless i, U+0131) is not an ASCII case
variant of `"info"` (nor of the other level names), yet `ParseLevel` returns
1 for it rather than the invalid sentinel -1: Go's `strings.ToUpper` maps
`ı` to `I`, so the table lookup hits `"INFO"`. -/
theorem parseLevel_unicode_dotless_i_cex :
    ParseLevel "ınfo" = 1 ∧
    asciiToUpper "ınfo" ≠ asciiToUpper "debug" ∧
    asciiToUpper "ınfo" ≠ asciiToUpper "info" ∧
    asciiToUpper "ınfo" ≠ asciiToUpper "error" ∧
    ParseLevel "ınfo" ≠ -1 := by
  refine ⟨by decide, by decide, by decide, by decide, by decide⟩

/-- C7 as amended: `ParseLevel` is total and case-insensitive via Go's
Unicode uppercasing: every string whose `strings.ToUpper` image agrees with
that of `"debug"` / `"info"` / `"error"` — every ASCII case variant
included, but also e.g. `"ınfo"` — parses to 0 / 1 / 2, and every string
whose uppercasing is none of `"DEBUG"` / `"INFO"` / `"ERROR"` (the empty
string included) parses to the invalid sentinel -1; no input throws or
yields a default level. -/
theorem parseLevel_total_case_insensitive (s : String) :
    (goToUpper s = goToUpper "debug" → ParseLevel s = 0) ∧
    (goToUpper s = goToUpper "info" → ParseLevel s = 1) ∧
    (goToUpper s = goToUpper "error" → ParseLevel s = 2) ∧
    (goToUpper s ≠ "DEBUG" → goToUpper s ≠ "INFO" → goToUpper s ≠ "ERROR" →
      ParseLevel s = -1) := by
  have hd : goToUpper "debug" = "DEBUG" := by decide
  have hi : goToUpper "info" = "INFO" := by decide
  have he : goToUpper "error" = "ERROR" := by decide
  refine ⟨fun h => ?_, fun h => ?_, fun h => ?_, fun n0 n1 n2 => ?_⟩
  · rw [hd] at h; simp [ParseLevel, levelValues, h]
  · rw [hi] at h; simp [ParseLevel, levelValues, h]
  · rw [he] at h; simp [ParseLevel, levelValues, h]
  · simp [ParseLevel, levelValues, n0, n1, n2]

/-- Witness for C7 at concrete inputs: mixed-case variants of the three level
names and two invalid inputs, the empty string included. -/
theorem parseLevel_total_case_insensitive_witness :
    ParseLevel "DeBuG" = 0 ∧ ParseLevel "Info" = 1 ∧ ParseLevel "ERROR" = 2 ∧
    ParseLevel "" = -1 ∧ ParseLevel "bogus" = -1 :=
  ⟨(parseLevel_total_case_insensitive "DeBuG").1 (by decide),
   (parseLevel_total_case_insensitive "Info").2.1 (by decide),
   (parseLevel_total_case_insensitive "ERROR").2.2.1 (by decide),
   (parseLevel_total_case_insensitive "").2.2.2 (by decide) (by decide) (by decide),
   (parseLevel_total_case_insensitive "bogus").2.2.2 (by decide) (by decide) (by decide)⟩

/-! ## Claim theorems: value renderer -/

/-- C3: text-mode value rendering never aborts on a supported category
(string, bool, integer, unsigned, float, time, error), and aborts the log
call on every value the encoder cannot represent: the two complex-number
cases panic directly, and every value `sonic.Marshal` rejects (channels and
functions included) makes the fallback `reflectToString` panic. -/
theorem valToString_fail_fast (v : GoVal) :
    (isSupportedCat v = true → (valToString v).isFault = false) ∧
    ((sonicMarshalVal v).isNone = true → (valToString v).isFault = true) := by
  cases v <;>
    simp [isSupportedCat, valToString, reflectToString, sonicMarshalVal, Res.isFault]
  case other marshalled => cases marshalled <;> simp [Res.isFault]

/-- Witness for C3 at concrete values: a string field renders without
aborting; a channel field, a function field and a complex64 field each abort
the call. -/
theorem valToString_fail_fast_witness :
    (valToString (.string "login")).isFault = false ∧
    (valToString .chanV).isFault = true ∧
    (valToString .funcV).isFault = true ∧
    (valToString .complex64).isFault = true :=
  ⟨(valToString_fail_fast (.string "login")).1 (by decide),
   (valToString_fail_fast .chanV).2 (by decide),
   (valToString_fail_fast .funcV).2 (by decide),
   (valToString_fail_fast .complex64).2 (by decide)⟩

/-! ## Claim theorems: scope -/

/-- C4: an emission whose level fails the `shouldLog` check returns with no
observable effect — the scope (its field set included) is returned unchanged,
the writer is never invoked, and zero enrichers run. -/
theorem scopeWrite_below_threshold_no_effect (minLevel level : Int) (l : ScopeState)
    (msg : String) (h : shouldLog minLevel level = false) :
    scopeWrite minLevel l level msg = (l, none, 0) := by
  simp [scopeWrite, h]

/-- Witness for C4: with minimum Info (1), a Debug (0) emission on a scope
holding one field and one attached enricher changes nothing. -/
theorem scopeWrite_below_threshold_no_effect_witness :
    shouldLog 1 0 = false ∧
    scopeWrite 1 sampleScope 0 "debug message" = (sampleScope, none, 0) :=
  ⟨by decide, scopeWrite_below_threshold_no_effect 1 0 sampleScope "debug message" (by decide)⟩

/-- Helper: with no attached enrichers, the `write` step returns the scope
unchanged (whether or not it emits). -/
theorem scopeWrite_no_enrichers (minLevel level : Int) (l : ScopeState) (msg : String)
    (henr : l.enrichers = []) : (scopeWrite minLevel l level msg).1 = l := by
  obtain ⟨f, e⟩ := l
  have he : e = [] := henr
  subst he
  by_cases h : shouldLog minLevel level <;> simp [scopeWrite, h]

/-- C2 counterexample: on a scope built by `WithError` (which stores
`err.Error()` — a string — under the `"error"` key), `LogScope.Error`
returns an error whose message is the formatted message alone; the original
error's text `"boom"` does not occur in it, contradicting the claim that the
returned error wraps the stored error text. -/
theorem scopeError_after_withError_drops_original_cex :
    (scopeError minLevelInit (scopeWithError newScope "boom") "failed: bad input").2
      = "failed: bad input" ∧
    strContains
      (scopeError minLevelInit (scopeWithError newScope "boom") "failed: bad input").2
      "boom" = false := by
  constructor
  · rfl
  · decide

/-- C2 as amended: with no prior `"error"` field, `LogScope.Error` returns a
fresh error carrying the formatted message; after `WithError` the `"error"`
field holds a string, the `.(error)` type assertion fails, and the returned
message is again the formatted message alone; the wrapping branch
(`errors.Wrap`, message `formatted ++ ": " ++ original`) runs only when the
`"error"` field holds an error-typed value, e.g. one stored via
`With("error", err)`. -/
theorem scopeError_return_message (minLevel : Int) (l : ScopeState)
    (orig origDetail formatted : String) (henr : l.enrichers = []) :
    (mapGet l.fields "error" = none → (scopeError minLevel l formatted).2 = formatted) ∧
    ((scopeError minLevel (scopeWithError l orig) formatted).2 = formatted) ∧
    ((scopeError minLevel (scopeWith l "error" (.err orig origDetail)) formatted).2
      = errorsWrapMsg formatted orig) := by
  have hw : ∀ l' : ScopeState, l'.enrichers = [] →
      (scopeError minLevel l' formatted).2 = scopeErrorReturn l' formatted := by
    intro l' h
    simp [scopeError, scopeWrite_no_enrichers minLevel LevelError l' formatted h]
  refine ⟨fun hnone => ?_, ?_, ?_⟩
  · rw [hw l henr]
    simp [scopeErrorReturn, hnone]
  · rw [hw (scopeWithError l orig) henr]
    simp [scopeErrorReturn, scopeWithError, mapGet_mapSet_self]
  · rw [hw (scopeWith l "error" (.err orig origDetail)) henr]
    simp [scopeErrorReturn, scopeWith, mapGet_mapSet_self]

/-- Witness for C2's amended statement at concrete inputs: a fresh scope, a
`WithError` scope, and a scope whose `"error"` field holds an error-typed
value. -/
theorem scopeError_return_message_witness :
    (scopeError 1 newScope "failed: bad input").2 = "failed: bad input" ∧
    (scopeError 1 (scopeWithError newScope "boom") "failed: bad input").2
      = "failed: bad input" ∧
    (scopeError 1 (scopeWith newScope "error" (.err "boom" "boom detail"))
      "failed: bad input").2 = errorsWrapMsg "failed: bad input" "boom" :=
  ⟨(scopeError_return_message 1 newScope "boom" "boom detail" "failed: bad input" rfl).1 rfl,
   (scopeError_return_message 1 newScope "boom" "boom detail" "failed: bad input" rfl).2.1,
   (scopeError_return_message 1 newScope "boom" "boom detail" "failed: bad input" rfl).2.2⟩

/-! ## Claim theorems: JSON writer -/

/-- C1 (the code, as written): `jsonWriter.Write` on a field set the
serializer cannot represent — a channel-typed or complex-typed field —
panics with the marshal error instead of degrading to a record whose error
field reads `"failed to marshal log entry: ..."`, which is what the
package's own test asserts. -/
theorem jsonWriter_write_panics_on_unmarshalable_field :
    (jsonWriterWrite "2024-03-30T12:34:56Z" "log_test.go:10" LevelInfo "test channel"
      [("channel", .chanV)]).isFault = true ∧
    (jsonWriterWrite "2024-03-30T12:34:56Z" "log_test.go:10" LevelInfo "test complex64"
      [("complex64", .complex64)]).isFault = true := by
  constructor <;> decide

/-- Helper: the user-field loop of `jsonWriter.Write` written as `insertAll`
over the renamed pair list. -/
theorem jsonWriterEntry_eq_insertAll (now caller : String) (level : Int) (msg : String)
    (fields : Fields) :
    jsonWriterEntry now caller level msg fields
      = insertAll (jsonWriterBase now caller level msg)
          (fields.map fun kv => (kv.1, jsonRenderField kv.2)) := by
  simp [jsonWriterEntry, insertAll, List.foldl_map]

/-- Helper: renaming the values of a pair list keeps its key list. -/
theorem mapKeys_map_renderField (fields : Fields) :
    mapKeys (fields.map fun kv => (kv.1, jsonRenderField kv.2)) = mapKeys fields := by
  unfold mapKeys
  rw [List.map_map]
  exact congrFun (congrArg List.map (funext fun kv => rfl)) fields

/-- C8: a successfully marshalled structured-mode record is the flat entry
map: reserved keys `time`, `level`, `msg`, `caller` (whenever no user field
collides with them) plus every user field at the top level — and on a
collision the user field wins, since user fields are assigned after the
reserved keys. -/
theorem jsonWriterEntry_record_shape (now caller : String) (level : Int) (msg : String)
    (fields : Fields) (hnd : (mapKeys fields).Nodup) :
    (∀ e, jsonWriterWrite now caller level msg fields = .ok e →
        e = jsonWriterEntry now caller level msg fields) ∧
    (∀ k v, (k, v) ∈ fields →
        mapGet (jsonWriterEntry now caller level msg fields) k = some (jsonRenderField v)) ∧
    (FieldTime ∉ mapKeys fields →
        mapGet (jsonWriterEntry now caller level msg fields) FieldTime
          = some (.string now)) ∧
    (FieldLevel ∉ mapKeys fields →
        mapGet (jsonWriterEntry now caller level msg fields) FieldLevel
          = some (.string (LevelString level))) ∧
    (FieldMessage ∉ mapKeys fields →
        mapGet (jsonWriterEntry now caller level msg fields) FieldMessage
          = some (.string msg)) ∧
    (FieldCaller ∉ mapKeys fields →
        mapGet (jsonWriterEntry now caller level msg fields) FieldCaller
          = some (.string caller)) := by
  have hbase : ∀ k : String, k ∉ mapKeys fields →
      mapGet (jsonWriterEntry now caller level msg fields) k
        = mapGet (jsonWriterBase now caller level msg) k := by
    intro k hk
    rw [jsonWriterEntry_eq_insertAll]
    exact mapGet_insertAll_not_mem _ _ k (by rwa [mapKeys_map_renderField])
  refine ⟨?_, ?_, ?_, ?_, ?_, ?_⟩
  · intro e he
    rw [jsonWriterWrite] at he
    by_cases hm : entryMarshalable (jsonWriterEntry now caller level msg fields)
    · simp only [hm, if_true] at he
      exact (Res.ok.injEq .. ▸ he).symm
    · simp [hm] at he
  · intro k v hmem
    rw [jsonWriterEntry_eq_insertAll]
    exact mapGet_insertAll_mem _ _ k (jsonRenderField v)
      (by rwa [mapKeys_map_renderField])
      (List.mem_map_of_mem _ hmem)
  · intro hk
    rw [hbase FieldTime hk]
    simp [jsonWriterBase, mapSet, mapGet, FieldTime, FieldLevel, FieldMessage, FieldCaller]
  · intro hk
    rw [hbase FieldLevel hk]
    simp [jsonWriterBase, mapSet, mapGet, FieldTime, FieldLevel, FieldMessage, FieldCaller]
  · intro hk
    rw [hbase FieldMessage hk]
    simp [jsonWriterBase, mapSet, mapGet, FieldTime, FieldLevel, FieldMessage, FieldCaller]
  · intro hk
    rw [hbase FieldCaller hk]
    simp [jsonWriterBase, mapSet, mapGet, FieldTime, FieldLevel, FieldMessage, FieldCaller]

/-- Witness for C8 on a concrete field set containing a user field named
`level`: the user value overrides the reserved level entry, the other user
field appears at top level, and the non-colliding reserved keys hold the
time, message and caller. -/
theorem jsonWriterEntry_record_shape_witness :
    mapGet (jsonWriterEntry "2024-03-30T12:34:56Z" "main.go:42" 1 "user action"
      exampleJsonFields) "level" = some (.string "custom") ∧
    mapGet (jsonWriterEntry "2024-03-30T12:34:56Z" "main.go:42" 1 "user action"
      exampleJsonFields) "user_id" = some (.int 123) ∧
    mapGet (jsonWriterEntry "2024-03-30T12:34:56Z" "main.go:42" 1 "user action"
      exampleJsonFields) "time" = some (.string "2024-03-30T12:34:56Z") ∧
    mapGet (jsonWriterEntry "2024-03-30T12:34:56Z" "main.go:42" 1 "user action"
      exampleJsonFields) "msg" = some (.string "user action") ∧
    mapGet (jsonWriterEntry "2024-03-30T12:34:56Z" "main.go:42" 1 "user action"
      exampleJsonFields) "caller" = some (.string "main.go:42") :=
  ⟨(jsonWriterEntry_record_shape "2024-03-30T12:34:56Z" "main.go:42" 1 "user action"
      exampleJsonFields (by decide)).2.1 "level" (.string "custom") (by decide),
   (jsonWriterEntry_record_shape "2024-03-30T12:34:56Z" "main.go:42" 1 "user action"
      exampleJsonFields (by decide)).2.1 "user_id" (.int 123) (by decide),
   (jsonWriterEntry_record_shape "2024-03-30T12:34:56Z" "main.go:42" 1 "user action"
      exampleJsonFields (by decide)).2.2.1 (by decide),
   (jsonWriterEntry_record_shape "2024-03-30T12:34:56Z" "main.go:42" 1 "user action"
      exampleJsonFields (by decide)).2.2.2.2.1 (by decide),
   (jsonWriterEntry_record_shape "2024-03-30T12:34:56Z" "main.go:42" 1 "user action"
      exampleJsonFields (by decide)).2.2.2.2.2 (by decide)⟩

/-! ## Claim theorems: variadic pair constructor -/

/-- Helper: a `WithPairs` argument list matching neither the empty case nor
the string-key pair case is malformed. -/
theorem wellFormedPairs_catchall (x : List GoVal)
    (hx1 : x = [] → False)
    (hx2 : ∀ (s : String) (head : GoVal) (rest : List GoVal),
      x = GoVal.string s :: head :: rest → False) :
    wellFormedPairs x = false := by
  match x with
  | [] => exact absurd rfl hx1
  | [hd] => cases hd <;> rfl
  | hd :: head :: rest =>
    cases hd <;> first | rfl | exact ((hx2 _ _ _ rfl).elim)

/-- Helper: the collection loop panics on an argument list matching neither
the empty case nor the string-key pair case. -/
theorem withPairsLoop_catchall (x : List GoVal) (acc : Fields)
    (hx1 : x = [] → False)
    (hx2 : ∀ (s : String) (head : GoVal) (rest : List GoVal),
      x = GoVal.string s :: head :: rest → False) :
    (withPairsLoop x acc).isFault = true := by
  match x with
  | [] => exact absurd rfl hx1
  | [hd] => rfl
  | hd :: head :: rest =>
    cases hd <;> first | rfl | exact ((hx2 _ _ _ rfl).elim)

/-- Helper: folding one more assignment. -/
theorem insertAll_cons (base : Fields) (k : String) (v : GoVal)
    (ps : List (String × GoVal)) :
    insertAll base ((k, v) :: ps) = insertAll (mapSet base k v) ps := rfl

/-- Helper: a well-formed `WithPairs` argument list has even length. -/
theorem wellFormedPairs_even (args : List GoVal) (h : wellFormedPairs args = true) :
    args.length % 2 = 0 := by
  induction args using wellFormedPairs.induct with
  | case1 => simp
  | case2 k v rest ih =>
    simp only [wellFormedPairs] at h
    have := ih h
    simp only [List.length_cons]
    omega
  | case3 x hx1 hx2 =>
    rw [wellFormedPairs_catchall x hx1 hx2] at h
    cases h

/-- Helper: on a well-formed argument list the collection loop returns the
accumulated Go map. -/
theorem withPairsLoop_ok (args : List GoVal) (acc : Fields)
    (h : wellFormedPairs args = true) :
    withPairsLoop args acc = .ok (insertAll acc (pairList args)) := by
  induction args using wellFormedPairs.induct generalizing acc with
  | case1 => simp [withPairsLoop, pairList, insertAll]
  | case2 k v rest ih =>
    simp only [wellFormedPairs] at h
    simp only [withPairsLoop, pairList, insertAll_cons]
    exact ih (mapSet acc k v) h
  | case3 x hx1 hx2 =>
    rw [wellFormedPairs_catchall x hx1 hx2] at h
    cases h

/-- Helper: on a malformed argument list the collection loop panics. -/
theorem withPairsLoop_fault (args : List GoVal) (acc : Fields)
    (h : wellFormedPairs args = false) :
    (withPairsLoop args acc).isFault = true := by
  induction args using wellFormedPairs.induct generalizing acc with
  | case1 => simp [wellFormedPairs] at h
  | case2 k v rest ih =>
    simp only [wellFormedPairs] at h
    simp only [withPairsLoop]
    exact ih (mapSet acc k v) h
  | case3 x hx1 hx2 =>
    exact withPairsLoop_catchall x acc hx1 hx2

/-- C9: `WithPairs` panics exactly on a malformed argument list (odd length,
or a non-string element at an even index); on a well-formed list it returns
the scope built by `WithFields` from the collected pairs, and — when the
even-index keys are pairwise distinct — that scope's field set maps each key
to the value that follows it. -/
theorem withPairs_malformed_panics_wellformed_builds (args : List GoVal) :
    (wellFormedPairs args = false → (WithPairs args).isFault = true) ∧
    (wellFormedPairs args = true →
      WithPairs args = .ok (scopeWithFields newScope (insertAll [] (pairList args)))) ∧
    (wellFormedPairs args = true → (mapKeys (pairList args)).Nodup →
      ∀ k v, (k, v) ∈ pairList args →
        ∃ l, WithPairs args = .ok l ∧ mapGet l.fields k = some v) := by
  have hok : wellFormedPairs args = true →
      WithPairs args = .ok (scopeWithFields newScope (insertAll [] (pairList args))) := by
    intro h
    rw [WithPairs, if_neg (by simp [wellFormedPairs_even args h]),
      withPairsLoop_ok args [] h]
  refine ⟨?_, hok, ?_⟩
  · intro h
    rw [WithPairs]
    by_cases hpar : args.length % 2 = 0
    · rw [if_neg (by simp [hpar])]
      have hf := withPairsLoop_fault args [] h
      rcases hl : withPairsLoop args [] with p | e
      · rw [hl] at hf
        simp [Res.isFault] at hf
      · rfl
    · rw [if_pos hpar]
      rfl
  · intro h hnd k v hmem
    refine ⟨scopeWithFields newScope (insertAll [] (pairList args)), hok h, ?_⟩
    have step1 : mapGet (insertAll [] (pairList args)) k = some v :=
      mapGet_insertAll_mem (pairList args) [] k v hnd hmem
    have step2 : (mapKeys (insertAll [] (pairList args))).Nodup :=
      nodup_mapKeys_insertAll (pairList args) [] (by simp [mapKeys])
    have step3 : (k, v) ∈ insertAll [] (pairList args) :=
      mem_of_mapGet_eq_some _ k v step1
    have : (scopeWithFields newScope (insertAll [] (pairList args))).fields
        = insertAll [] (insertAll [] (pairList args)) := rfl
    rw [this]
    exact mapGet_insertAll_mem _ [] k v step2 step3

/-- Witness for C9 at concrete inputs: an odd list panics, a non-string key
panics, and a well-formed list builds the expected field map. -/
theorem withPairs_malformed_panics_wellformed_builds_witness :
    (WithPairs [GoVal.string "a"]).isFault = true ∧
    (WithPairs [GoVal.int 3, GoVal.int 4]).isFault = true ∧
    (∃ l, WithPairs [GoVal.string "a", GoVal.int 1, GoVal.string "b", GoVal.bool true]
        = .ok l ∧ mapGet l.fields "a" = some (.int 1)) :=
  ⟨(withPairs_malformed_panics_wellformed_builds [GoVal.string "a"]).1 (by decide),
   (withPairs_malformed_panics_wellformed_builds [GoVal.int 3, GoVal.int 4]).1 (by decide),
   (withPairs_malformed_panics_wellformed_builds
      [GoVal.string "a", GoVal.int 1, GoVal.string "b", GoVal.bool true]).2.2
     (by decide) (by decide) "a" (.int 1) (by decide)⟩

/-! ## Claim theorems: global façade -/

/-- C10: the package-level writer is a `defaultWriter` literal whose buffer
field is never initialized — only `NewDefaultWriter` sets it — so a global
emission at a level passing the minimum-level filter, before any `SetWriter`
call, writes through a nil buffered writer and faults instead of appending a
record. -/
theorem globalEmit_nil_buffer_faults (level : Int) (msg now caller : String)
    (h : shouldLog minLevelInit level = true) :
    instanceInit.buf? = none ∧
    (∀ o : GoSink, (NewDefaultWriter o).buf?.isSome = true) ∧
    (globalEmit now caller minLevelInit instanceInit level msg).isFault = true := by
  refine ⟨rfl, fun o => rfl, ?_⟩
  simp [globalEmit, h, defaultWriterWrite, fieldsToString, instanceInit, Res.isFault]

/-- Witness for C10: an Error-level (2) emission passes the initial Info
minimum and faults on the uninitialized global writer. -/
theorem globalEmit_nil_buffer_faults_witness :
    shouldLog minLevelInit 2 = true ∧
    (globalEmit "2024-03-30T12:34:56Z" "main.go:42" minLevelInit instanceInit 2
      "boot").isFault = true :=
  ⟨by decide,
   (globalEmit_nil_buffer_faults 2 "boot" "2024-03-30T12:34:56Z" "main.go:42"
      (by decide)).2.2⟩

end Golog
